import Mathlib

/-!
Verification development for the Smart-transcriber repository.

The repository is a browser media-transcription tool.  The parts the
claims touch are embedded shallowly below:

* `processMedia` (src/services/geminiService.ts): the remote
  transcription client with bounded retry, empty-response check and
  one-shot JSON repair.  The external call and JSON.parse are modelled
  as oracles (a list of call outcomes and a parse function); the
  observable attempt count and retry-delay count are returned alongside
  the result.
* The processing queue of src/App.tsx (`handleStartUpload`, the
  scheduling effect, `processQueueItem` status updates), modelled as a
  step relation on the queue list.
* The knowledge-store operations of src/App.tsx (`updateRecording`,
  `toggleBookmark`, `deleteRecording`).
* `handleRenameSpeaker` of src/components/VideoUploader.tsx.

JavaScript string and truthiness semantics used by the source are
modelled by explicit helpers (`jsOr`, `jsBool`, `jsShowOpt`,
`containsSub`, `jsTrim`, `strEndsWith`).
-/

namespace SmartTranscriber

/-- Does the first list occur as a prefix of the second? -/
def listStartsWith : List Char → List Char → Bool
  | [], _ => true
  | _ :: _, [] => false
  | a :: as, b :: bs => decide (a = b) && listStartsWith as bs

/-- Does the first list occur as a contiguous sublist of the second? -/
def listContains (needle : List Char) : List Char → Bool
  | [] => listStartsWith needle []
  | c :: cs => listStartsWith needle (c :: cs) || listContains needle cs

/-- JavaScript `hay.includes(needle)` on strings. -/
def containsSub (hay needle : String) : Bool :=
  listContains needle.data hay.data

/-- JavaScript `s.endsWith(suffix)`. -/
def strEndsWith (s suffix : String) : Bool :=
  listStartsWith suffix.data.reverse s.data.reverse

/-- Whitespace characters stripped by `String.prototype.trim`. -/
def isWs (c : Char) : Bool :=
  decide (c = ' ') || decide (c = '\n') || decide (c = '\t') || decide (c = '\r')

/-- JavaScript `s.trim()`. -/
def jsTrim (s : String) : String :=
  ⟨((s.data.dropWhile isWs).reverse.dropWhile isWs).reverse⟩

/-- JavaScript `s || d` for a possibly-absent string: `undefined` and the
empty string are falsy and select the default. -/
def jsOr (s : Option String) (d : String) : String :=
  match s with
  | some v => if v = "" then d else v
  | none => d

/-- JavaScript truthiness of a possibly-absent boolean. -/
def jsBool (b : Option Bool) : Bool :=
  match b with
  | some v => v
  | none => false

/-- JavaScript template-literal rendering of a possibly-absent string
(`undefined` prints as "undefined"). -/
def jsShowOpt (s : Option String) : String :=
  match s with
  | some v => v
  | none => "undefined"

/-! ## Data model (src/types.ts) -/

/-- The `language` union of src/types.ts. -/
inductive Language
  | English | Hindi | Marathi | Mixed
deriving DecidableEq

/-- `TranscriptSegment` of src/types.ts. -/
structure TranscriptSegment where
  id : String
  timestamp : String
  speaker : Option String
  text : String
  translatedText : Option String
  language : Option Language
deriving DecidableEq

/-- `Attendee` of src/types.ts. -/
structure Attendee where
  name : String
  company : String
deriving DecidableEq

/-- `Recording` of src/types.ts. -/
structure Recording where
  id : String
  name : String
  projectName : String
  subject : String
  transcript : List TranscriptSegment
  fullText : String
  dateCreated : String
  meetingDate : String
  remarks : Option String
  isBookmarked : Option Bool
  mediaUrl : Option String
  attendees : Option (List Attendee)
deriving DecidableEq

/-! ## Remote transcription client (src/services/geminiService.ts) -/

/-- One segment record of the structured JSON response
(`timestamp` and `text` required, the rest optional). -/
structure SegmentIn where
  timestamp : String
  speaker : Option String
  text : String
  translatedText : Option String
  language : Option Language
deriving DecidableEq

/-- The parsed duck-typed response object: `data.subject`,
`data.segments` and a possible model-supplied `data.fullText`, each of
which may be absent. -/
structure JsonData where
  subject : Option String
  segments : Option (List SegmentIn)
  fullText : Option String
deriving DecidableEq

/-- The success value of `processMedia`. -/
structure MediaResult where
  transcript : List TranscriptSegment
  fullText : String
  subject : String
deriving DecidableEq

/-- Outcome of one `ai.models.generateContent` call: either the call
throws with an error message, or it yields a response whose `text`
field is the given string (absent text modelled as the empty string,
matching the `!text` check). -/
inductive CallResult
  | failure (msg : String)
  | body (text : String)
deriving DecidableEq

/-- The transient-error classifier of the catch branch:
`err.message?.includes('500') || err.message?.includes('xhr') ||
err.message?.includes('Unterminated')`. -/
def isTransient (msg : String) : Bool :=
  containsSub msg "500" || containsSub msg "xhr" || containsSub msg "Unterminated"

/-- The truncation repair of the parse-error branch: trim, then if the
text does not end in a closing brace append either a closing brace or
a bracket-brace pair. -/
def repairJson (text : String) : String :=
  let t := jsTrim text
  if strEndsWith t "\x7d" then t
  else if strEndsWith t "]" then t ++ "\x7d"
  else t ++ "]\x7d"

/-- The parse-then-repair pipeline around `JSON.parse`: first parse the
raw text; on failure parse the repaired text once, its failure being
final.  Also returns the list of strings passed to the parser, in
order, to make the number of parse attempts observable. -/
def parseWithRepair (parse : String → Except String JsonData)
    (text : String) : Except String JsonData × List String :=
  match parse text with
  | .ok d => (.ok d, [text])
  | .error _ =>
    match parse (repairJson text) with
    | .ok d => (.ok d, [text, repairJson text])
    | .error e2 => (.error e2, [text, repairJson text])

/-- `(data.segments || []).map((s, idx) => ({ ...s, id: ... }))`:
attach the synthetic id to every parsed segment, in order.  `now`
stands for `Date.now()`. -/
def mkSegments (segs : List SegmentIn) (now : Nat) : List TranscriptSegment :=
  segs.enum.map fun p =>
    { id := "seg-" ++ toString p.1 ++ "-" ++ toString now
      timestamp := p.2.timestamp
      speaker := p.2.speaker
      text := p.2.text
      translatedText := p.2.translatedText
      language := p.2.language }

/-- The per-segment line of the locally derived transcript:
`[timestamp] speaker: text`, with the speaker defaulting to "Speaker". -/
def renderSegment (s : TranscriptSegment) : String :=
  "[" ++ s.timestamp ++ "] " ++ jsOr s.speaker "Speaker" ++ ": " ++ s.text

/-- Build the success value from parsed data: segments with ids, the
locally computed full text, and the subject with its fallback.  The
`fullText` field of the parsed data is never consulted. -/
def buildResult (data : JsonData) (now : Nat) : MediaResult :=
  let segments := mkSegments (data.segments.getD []) now
  { transcript := segments
    fullText := String.intercalate "\n" (segments.map renderSegment)
    subject := jsOr data.subject "Untitled Recording" }

/-- One attempt of the `try` block of `processMedia`: a thrown call
error propagates; an empty response text throws the fixed message; a
non-empty text goes through parse-with-repair and on success is mapped
to the result. -/
def attemptOnce (parse : String → Except String JsonData)
    (res : CallResult) (now : Nat) : Except String MediaResult :=
  match res with
  | .failure msg => .error msg
  | .body text =>
    if text = "" then .error "Empty response from AI model"
    else
      match (parseWithRepair parse text).1 with
      | .ok data => .ok (buildResult data now)
      | .error e => .error e

/-- `processMedia` over an oracle of call outcomes, one consumed per
attempt.  Returns the result together with the number of attempts made
and the number of retry delays awaited.  The catch branch retries only
while `retries > 0` and the error is classified transient, decrementing
the retry budget. -/
def processMedia (parse : String → Except String JsonData) (now : Nat) :
    Nat → List CallResult → Except String MediaResult × Nat × Nat
  | _, [] => (.error "no call outcome", 0, 0)
  | retries, r :: rest =>
    match attemptOnce parse r now with
    | .ok v => (.ok v, 1, 0)
    | .error msg =>
      if 0 < retries ∧ isTransient msg = true then
        match processMedia parse now (retries - 1) rest with
        | (res, a, d) => (res, a + 1, d + 1)
      else (.error msg, 1, 0)

/-! ## Processing queue (src/App.tsx) -/

/-- The four-state queue status of `QueueItem`. -/
inductive QStatus
  | pending | processing | done | error
deriving DecidableEq

/-- A file handle, reduced to the fields the queue reads. -/
structure MediaFile where
  name : String
  mime : String
deriving DecidableEq

/-- `QueueItem` of src/App.tsx. -/
structure QueueItem where
  id : String
  name : String
  status : QStatus
  progress : Option String
  projectName : String
  file : MediaFile
deriving DecidableEq

/-- `handleStartUpload`: build one pending item per file and append the
batch to the queue.  `freshId` stands for `crypto.randomUUID()`,
indexed by position in the batch. -/
def handleStartUpload (queue : List QueueItem) (files : List MediaFile)
    (projectName : String) (freshId : Nat → String) : List QueueItem :=
  queue ++ files.enum.map fun p =>
    { id := freshId p.1
      name := p.2.name
      status := .pending
      progress := none
      projectName := projectName
      file := p.2 }

/-- `prev.map(q => q.id === item.id ? { ...q, status } : q)`: the status
update every queue transition uses. -/
def setStatus (q : List QueueItem) (id : String) (s : QStatus) : List QueueItem :=
  q.map fun it => if it.id = id then { it with status := s } else it

/-- The pending test of the scheduling effect. -/
def isPending (it : QueueItem) : Bool := decide (it.status = QStatus.pending)

/-- The processing test of the scheduling effect. -/
def isProcessing (it : QueueItem) : Bool := decide (it.status = QStatus.processing)

/-- Number of items currently in the processing state. -/
def processingCount (q : List QueueItem) : Nat := q.countP isProcessing

/-- One observable transition of the queue state, as driven by
`handleStartUpload`, the scheduling effect and `processQueueItem`:

* `enqueue` appends a batch of pending items (the freshness hypothesis
  models the uniqueness of `crypto.randomUUID()`);
* `dispatch` fires only when the effect finds a pending item and no
  item is processing, and marks the found item processing;
* `complete` and `fail` are the `done`/`error` updates at the end of
  `processQueueItem`;
* `sweep` is the delayed `setProcessingQueue([])` once nothing is
  pending or processing. -/
inductive QStep : List QueueItem → List QueueItem → Prop
  | enqueue (q : List QueueItem) (files : List MediaFile) (pn : String)
      (freshId : Nat → String)
      (hfresh : ((handleStartUpload q files pn freshId).map QueueItem.id).Nodup) :
      QStep q (handleStartUpload q files pn freshId)
  | dispatch (q : List QueueItem) (it : QueueItem)
      (hfind : q.find? isPending = some it)
      (hnone : processingCount q = 0) :
      QStep q (setStatus q it.id .processing)
  | complete (q : List QueueItem) (it : QueueItem) (hmem : it ∈ q)
      (hproc : it.status = .processing) :
      QStep q (setStatus q it.id .done)
  | fail (q : List QueueItem) (it : QueueItem) (hmem : it ∈ q)
      (hproc : it.status = .processing) :
      QStep q (setStatus q it.id .error)
  | sweep (q : List QueueItem)
      (hidle : q.find? isPending = none)
      (hnone : processingCount q = 0) :
      QStep q []

/-- Queue states reachable from the initial empty queue. -/
inductive Reachable : List QueueItem → Prop
  | init : Reachable []
  | step {q q'} : Reachable q → QStep q q' → Reachable q'

/-! ## Knowledge store operations (src/App.tsx) -/

/-- `updateRecording` restricted to the recordings list:
`prev.map(r => r.id === updatedRec.id ? updatedRec : r)`. -/
def updateRecording (recs : List Recording) (updatedRec : Recording) :
    List Recording :=
  recs.map fun r => if r.id = updatedRec.id then updatedRec else r

/-- `toggleBookmark`: spread the recording and negate its (possibly
absent) bookmark flag. -/
def toggleBookmark (rec : Recording) : Recording :=
  { rec with isBookmarked := some (!jsBool rec.isBookmarked) }

/-- `deleteRecording`: drop the recording with the given id from the
list and clear the selection when it pointed at that id. -/
def deleteRecording (recs : List Recording) (sel : Option Recording)
    (id : String) : List Recording × Option Recording :=
  (recs.filter fun r => decide ¬ (r.id = id),
   if sel.map Recording.id = some id then none else sel)

/-! ## Speaker rename (src/components/VideoUploader.tsx) -/

/-- The per-segment line used by `handleRenameSpeaker` when it
recomputes the full text; unlike the service it renders an absent
speaker with the raw template literal. -/
def renderSegmentRename (s : TranscriptSegment) : String :=
  "[" ++ s.timestamp ++ "] " ++ jsShowOpt s.speaker ++ ": " ++ s.text

/-- The transcript update of `handleRenameSpeaker`: look up the anchor
segment by id, and give the new name to every segment whose speaker
equals the anchor's old speaker.  An all-whitespace new name leaves
the transcript untouched. -/
def renameSpeaker (transcript : List TranscriptSegment)
    (segmentId newName : String) : List TranscriptSegment :=
  if jsTrim newName = "" then transcript
  else transcript.map fun seg =>
    if seg.speaker = (transcript.find? fun s => decide (s.id = segmentId)).bind
        TranscriptSegment.speaker
    then { seg with speaker := some newName } else seg

/-- The full text recomputed by `handleRenameSpeaker` from the updated
transcript. -/
def renameFullText (transcript : List TranscriptSegment)
    (segmentId newName : String) : String :=
  String.intercalate "\n"
    ((renameSpeaker transcript segmentId newName).map renderSegmentRename)

/-! ## Theorems -/

/-- The fixed empty-response message is not classified transient. -/
theorem isTransient_empty_msg : isTransient "Empty response from AI model" = false := by
  decide

/-- Claim C2: processMedia retries only transient-classified errors, up
to 2 retries.  With a transient first error and a successful second
call the success value is returned after 2 attempts and exactly one
retry delay; with three consecutive transient errors the call fails
after 3 attempts and 2 retry delays, surfacing the last error; a
non-transient error is surfaced at once with no retry. -/
theorem processMedia_retry_policy
    (parse : String → Except String JsonData) (now : Nat)
    (m1 m2 m3 m : String) (r : CallResult) (v : MediaResult)
    (rest : List CallResult)
    (h1 : isTransient m1 = true) (h2 : isTransient m2 = true)
    (h3 : isTransient m3 = true)
    (hok : attemptOnce parse r now = .ok v)
    (hm : isTransient m = false) :
    processMedia parse now 2 (.failure m1 :: r :: rest) = (.ok v, 2, 1) ∧
    processMedia parse now 2 (.failure m1 :: .failure m2 :: .failure m3 :: rest)
      = (.error m3, 3, 2) ∧
    processMedia parse now 2 (.failure m :: rest) = (.error m, 1, 0) := by
  have ha : ∀ s : String, attemptOnce parse (.failure s) now = .error s :=
    fun _ => rfl
  refine ⟨?_, ?_, ?_⟩ <;>
    simp [processMedia, ha, h1, h2, h3, hok, hm]

/-- Concrete instance of the retry policy: a 500-class error then a
successful parse return the success after one delay; three 500-class
errors exhaust the two retries; a non-transient message is not
retried. -/
theorem processMedia_retry_policy_witness :
    processMedia (fun _ => Except.ok ⟨some "S", some [], none⟩) 7 2
        [.failure "http 500 error", .body "x"]
      = (.ok (buildResult ⟨some "S", some [], none⟩ 7), 2, 1) ∧
    processMedia (fun _ => Except.ok ⟨some "S", some [], none⟩) 7 2
        [.failure "http 500 error", .failure "xhr poll error", .failure "Unterminated string"]
      = (.error "Unterminated string", 3, 2) ∧
    processMedia (fun _ => Except.ok ⟨some "S", some [], none⟩) 7 2
        [.failure "quota exceeded"]
      = (.error "quota exceeded", 1, 0) :=
  processMedia_retry_policy (fun _ => Except.ok ⟨some "S", some [], none⟩) 7
    "http 500 error" "xhr poll error" "Unterminated string" "quota exceeded"
    (.body "x") (buildResult ⟨some "S", some [], none⟩ 7) []
    (by decide) (by decide) (by decide) (by rfl) (by decide)

/-- Claim C6: an empty response body fails immediately with the fixed
message, in a single attempt with no retry delay, whatever the retry
budget. -/
theorem processMedia_empty_response_fatal
    (parse : String → Except String JsonData) (now retries : Nat)
    (rest : List CallResult) :
    processMedia parse now retries (.body "" :: rest)
      = (.error "Empty response from AI model", 1, 0) := by
  simp [processMedia, attemptOnce, isTransient_empty_msg]

/-- A successful attempt always produces a value built by
`buildResult` from some parsed data. -/
theorem attemptOnce_ok_buildResult
    (parse : String → Except String JsonData) (r : CallResult) (now : Nat)
    (v : MediaResult) (h : attemptOnce parse r now = .ok v) :
    ∃ data, v = buildResult data now := by
  cases r with
  | failure msg => simp [attemptOnce] at h
  | body text =>
    simp only [attemptOnce] at h
    split at h
    · simp at h
    · split at h
      · exact ⟨_, (Except.ok.inj h).symm⟩
      · simp at h

/-- A successful run of processMedia always produces a value built by
`buildResult` from some parsed data. -/
theorem processMedia_ok_buildResult
    (parse : String → Except String JsonData) (now : Nat) :
    ∀ (retries : Nat) (resp : List CallResult) (v : MediaResult) (a d : Nat),
      processMedia parse now retries resp = (.ok v, a, d) →
      ∃ data, v = buildResult data now := by
  intro retries resp
  induction resp generalizing retries with
  | nil => intro v a d h; simp [processMedia] at h
  | cons r rest ih =>
    intro v a d h
    simp only [processMedia] at h
    split at h
    · rename_i w hA
      obtain rfl : w = v := Except.ok.inj (Prod.mk.inj h).1
      exact attemptOnce_ok_buildResult parse r now _ hA
    · rename_i msg hA
      split at h
      · rcases hrec : processMedia parse now (retries - 1) rest with ⟨res, a', d'⟩
        rw [hrec] at h
        obtain rfl : res = Except.ok v := (Prod.mk.inj h).1
        exact ih (retries - 1) v a' d' hrec
      · simp at h

/-- Claim C3: every successful processMedia result carries a full text
equal to the newline-joined rendering of its own segments in order,
and the built result is independent of any model-supplied fullText
field in the parsed response. -/
theorem processMedia_fullText_derived
    (parse : String → Except String JsonData) (now retries : Nat)
    (resp : List CallResult) (v : MediaResult) (a d : Nat)
    (data : JsonData) (o : Option String)
    (h : processMedia parse now retries resp = (.ok v, a, d)) :
    v.fullText = String.intercalate "\n" (v.transcript.map renderSegment) ∧
    buildResult { data with fullText := o } now = buildResult data now := by
  obtain ⟨w, rfl⟩ := processMedia_ok_buildResult parse now retries resp v a d h
  exact ⟨rfl, rfl⟩

/-- Concrete instance: a parsed response with one segment and a
model-supplied fullText field yields a locally derived full text, and
changing the model-supplied field changes nothing. -/
theorem processMedia_fullText_derived_witness :
    (buildResult ⟨some "S", some [⟨"00:01", some "A", "hi", none, none⟩], some "MODEL TEXT"⟩ 7).fullText
      = String.intercalate "\n"
          ((buildResult ⟨some "S", some [⟨"00:01", some "A", "hi", none, none⟩], some "MODEL TEXT"⟩ 7).transcript.map
            renderSegment) ∧
    buildResult ⟨some "S", some [], some "OTHER"⟩ 7 = buildResult ⟨some "S", some [], none⟩ 7 :=
  processMedia_fullText_derived
    (fun _ => Except.ok ⟨some "S", some [⟨"00:01", some "A", "hi", none, none⟩], some "MODEL TEXT"⟩)
    7 2 [.body "x"]
    (buildResult ⟨some "S", some [⟨"00:01", some "A", "hi", none, none⟩], some "MODEL TEXT"⟩ 7)
    1 0 ⟨some "S", some [], none⟩ (some "OTHER") (by rfl)

/-- Claim C7: on a non-empty body whose first parse fails, the parser
is called exactly twice — once on the raw text and once on its single
repair; the repair appends closing characters exactly when the trimmed
text does not end in a closing brace; and when the re-parse also fails
the attempt fails with that parse error. -/
theorem processMedia_repair_once
    (parse : String → Except String JsonData) (now : Nat)
    (text e e2 : String)
    (hne : ¬ text = "")
    (hfail : parse text = .error e)
    (hfail2 : parse (repairJson text) = .error e2) :
    (parseWithRepair parse text).2 = [text, repairJson text] ∧
    (strEndsWith (jsTrim text) "\x7d" = false →
      repairJson text = jsTrim text ++ "\x7d" ∨
      repairJson text = jsTrim text ++ "]\x7d") ∧
    attemptOnce parse (.body text) now = .error e2 := by
  refine ⟨?_, ?_, ?_⟩
  · simp [parseWithRepair, hfail, hfail2]
  · intro hends
    simp only [repairJson, hends, Bool.false_eq_true, if_false]
    split
    · exact Or.inl rfl
    · exact Or.inr rfl
  · simp [attemptOnce, hne, parseWithRepair, hfail, hfail2]

/-- Concrete instance: a body that opens a brace and never closes it is
parsed, repaired by appending a bracket-brace pair, re-parsed, and the
attempt fails with the second parse error. -/
theorem processMedia_repair_once_witness :
    (parseWithRepair (fun _ => Except.error "bad json") "\x7bx").2
      = ["\x7bx", repairJson "\x7bx"] ∧
    (strEndsWith (jsTrim "\x7bx") "\x7d" = false →
      repairJson "\x7bx" = jsTrim "\x7bx" ++ "\x7d" ∨
      repairJson "\x7bx" = jsTrim "\x7bx" ++ "]\x7d") ∧
    attemptOnce (fun _ => Except.error "bad json") (.body "\x7bx") 7
      = .error "bad json" :=
  processMedia_repair_once (fun _ => Except.error "bad json") 7
    "\x7bx" "bad json" "bad json" (by decide) (by rfl) (by rfl)

/-- Claim C4: handleStartUpload appends exactly one item per file to
the existing queue, leaves the pre-existing items unchanged, and the
item at offset `i` of the appended batch is pending, carries the given
project name and wraps the `i`-th input file. -/
theorem handleStartUpload_appends_pending
    (queue : List QueueItem) (files : List MediaFile) (pn : String)
    (freshId : Nat → String) (i : Nat) (h : i < files.length) :
    (handleStartUpload queue files pn freshId).length
      = queue.length + files.length ∧
    (handleStartUpload queue files pn freshId).take queue.length = queue ∧
    (handleStartUpload queue files pn freshId)[queue.length + i]? =
      some { id := freshId i
             name := (files.get ⟨i, h⟩).name
             status := .pending
             progress := none
             projectName := pn
             file := files.get ⟨i, h⟩ } := by
  refine ⟨?_, ?_, ?_⟩
  · simp [handleStartUpload]
  · simp [handleStartUpload]
  · show (queue ++ _)[queue.length + i]? = _
    rw [List.getElem?_append_right (by omega)]
    have hidx : queue.length + i - queue.length = i := by omega
    rw [hidx, List.getElem?_map, List.getElem?_enum,
      List.getElem?_eq_getElem (by simpa using h)]
    rfl

/-- Concrete instance: enqueuing two files onto a one-item queue keeps
the old item and appends two pending items in input order. -/
theorem handleStartUpload_appends_pending_witness :
    (handleStartUpload
        [{ id := "old", name := "a.mp4", status := .done, progress := none,
           projectName := "P", file := ⟨"a.mp4", "video/mp4"⟩ }]
        [⟨"b.mp4", "video/mp4"⟩, ⟨"c.wav", "audio/wav"⟩] "Q"
        (fun n => "u" ++ toString n)).length = 3 ∧
    (handleStartUpload
        [{ id := "old", name := "a.mp4", status := .done, progress := none,
           projectName := "P", file := ⟨"a.mp4", "video/mp4"⟩ }]
        [⟨"b.mp4", "video/mp4"⟩, ⟨"c.wav", "audio/wav"⟩] "Q"
        (fun n => "u" ++ toString n)).take 1
      = [{ id := "old", name := "a.mp4", status := .done, progress := none,
           projectName := "P", file := ⟨"a.mp4", "video/mp4"⟩ }] ∧
    (handleStartUpload
        [{ id := "old", name := "a.mp4", status := .done, progress := none,
           projectName := "P", file := ⟨"a.mp4", "video/mp4"⟩ }]
        [⟨"b.mp4", "video/mp4"⟩, ⟨"c.wav", "audio/wav"⟩] "Q"
        (fun n => "u" ++ toString n))[1 + 1]? =
      some { id := "u" ++ toString 1
             name := (([⟨"b.mp4", "video/mp4"⟩, ⟨"c.wav", "audio/wav"⟩] :
                List MediaFile).get ⟨1, by decide⟩).name
             status := .pending
             progress := none
             projectName := "Q"
             file := ([⟨"b.mp4", "video/mp4"⟩, ⟨"c.wav", "audio/wav"⟩] :
                List MediaFile).get ⟨1, by decide⟩ } :=
  handleStartUpload_appends_pending
    [{ id := "old", name := "a.mp4", status := .done, progress := none,
       projectName := "P", file := ⟨"a.mp4", "video/mp4"⟩ }]
    [⟨"b.mp4", "video/mp4"⟩, ⟨"c.wav", "audio/wav"⟩] "Q"
    (fun n => "u" ++ toString n) 1 (by decide)

/-- Status updates do not touch item identifiers. -/
theorem ids_setStatus (q : List QueueItem) (id : String) (s : QStatus) :
    (setStatus q id s).map QueueItem.id = q.map QueueItem.id := by
  unfold setStatus
  rw [List.map_map]
  apply List.map_congr_left
  intro it _
  by_cases h : it.id = id <;> simp [Function.comp, h]

/-- A status update aimed at an identifier absent from the queue is the
identity. -/
theorem setStatus_eq_of_not_mem (id : String) (s : QStatus) :
    ∀ q : List QueueItem, (∀ x ∈ q, ¬ x.id = id) → setStatus q id s = q := by
  intro q
  induction q with
  | nil => intro _; rfl
  | cons a q ih =>
    intro h
    have ha := h a (List.mem_cons_self a q)
    have hq := ih fun x hx => h x (List.mem_cons_of_mem a hx)
    simp only [setStatus, List.map_cons, if_neg ha]
    exact congrArg (List.cons a) hq

/-- The queue has no processing item exactly when every item's status
differs from processing. -/
theorem processingCount_eq_zero_iff (q : List QueueItem) :
    processingCount q = 0 ↔ ∀ x ∈ q, x.status ≠ QStatus.processing := by
  simp [processingCount, List.countP_eq_zero, isProcessing]

/-- Dispatching into an idle queue with unique identifiers yields
exactly one processing item. -/
theorem processingCount_setStatus_dispatch :
    ∀ (q : List QueueItem) (id : String),
      (∀ x ∈ q, x.status ≠ QStatus.processing) →
      (q.map QueueItem.id).Nodup →
      id ∈ q.map QueueItem.id →
      processingCount (setStatus q id QStatus.processing) = 1 := by
  intro q
  induction q with
  | nil => intro id _ _ hmem; simp at hmem
  | cons a q ih =>
    intro id hnone hnodup hmem
    simp only [List.map_cons, List.nodup_cons] at hnodup
    obtain ⟨hnotin, hnodup'⟩ := hnodup
    by_cases hid : a.id = id
    · have htail : ∀ x ∈ q, ¬ x.id = id := by
        intro x hx hxid
        apply hnotin
        have hax : a.id = x.id := by rw [hid, hxid]
        rw [hax]
        exact List.mem_map_of_mem QueueItem.id hx
      have hq0 : q.countP isProcessing = 0 := by
        refine List.countP_eq_zero.mpr fun x hx => ?_
        simpa [isProcessing] using hnone x (List.mem_cons_of_mem a hx)
      simp only [processingCount, setStatus, List.map_cons, if_pos hid]
      rw [show (List.map (fun it =>
          if it.id = id then { it with status := QStatus.processing } else it) q)
        = setStatus q id QStatus.processing from rfl]
      rw [setStatus_eq_of_not_mem id QStatus.processing q htail]
      simp [List.countP_cons, hq0, isProcessing]
    · have hmem' : id ∈ q.map QueueItem.id := by
        rcases List.mem_cons.mp hmem with h | h
        · exact absurd h.symm hid
        · exact h
      have hrec := ih id (fun x hx => hnone x (List.mem_cons_of_mem a hx))
        hnodup' hmem'
      have ha : isProcessing a = false := by
        simpa [isProcessing] using hnone a (List.mem_cons_self a q)
      simp only [processingCount, setStatus, List.map_cons, if_neg hid,
        List.countP_cons, ha] at hrec ⊢
      simpa [setStatus] using hrec

/-- Marking an item done or failed never increases the number of
processing items. -/
theorem processingCount_setStatus_le (q : List QueueItem) (id : String)
    (s : QStatus) (hs : s ≠ QStatus.processing) :
    processingCount (setStatus q id s) ≤ processingCount q := by
  induction q with
  | nil => exact le_refl _
  | cons a q ih =>
    have hcons : setStatus (a :: q) id s
        = (if a.id = id then { a with status := s } else a) :: setStatus q id s := rfl
    have ih' : processingCount (setStatus q id s) ≤ processingCount q := ih
    by_cases hid : a.id = id
    · have h1 : isProcessing { a with status := s } = false := by
        simp [isProcessing, hs]
      rw [hcons, if_pos hid]
      simp only [processingCount, List.countP_cons] at ih' ⊢
      rw [h1]
      simp only [Bool.false_eq_true, if_false]
      omega
    · rw [hcons, if_neg hid]
      simp only [processingCount, List.countP_cons] at ih' ⊢
      omega

/-- Enqueuing touches no statuses: the processing count is unchanged. -/
theorem processingCount_handleStartUpload (queue : List QueueItem)
    (files : List MediaFile) (pn : String) (freshId : Nat → String) :
    processingCount (handleStartUpload queue files pn freshId)
      = processingCount queue := by
  unfold processingCount handleStartUpload
  rw [List.countP_append]
  have h0 : (files.enum.map fun p =>
      ({ id := freshId p.1, name := p.2.name, status := .pending,
         progress := none, projectName := pn, file := p.2 } : QueueItem)).countP
        isProcessing = 0 := by
    refine List.countP_eq_zero.mpr fun x hx => ?_
    obtain ⟨p, -, rfl⟩ := List.mem_map.mp hx
    simp [isProcessing]
  omega

/-- The inductive invariant of the queue: unique item identifiers and
at most one processing item. -/
def QueueInv (q : List QueueItem) : Prop :=
  (q.map QueueItem.id).Nodup ∧ processingCount q ≤ 1

/-- Every queue transition preserves the invariant. -/
theorem QueueInv_step {q q' : List QueueItem} (hinv : QueueInv q)
    (hstep : QStep q q') : QueueInv q' := by
  cases hstep with
  | enqueue files pn freshId hfresh =>
    exact ⟨hfresh, by rw [processingCount_handleStartUpload]; exact hinv.2⟩
  | dispatch it hfind hnone =>
    refine ⟨by rw [ids_setStatus]; exact hinv.1, ?_⟩
    have hnone' := (processingCount_eq_zero_iff _).mp hnone
    have hmem : it.id ∈ List.map QueueItem.id _ :=
      List.mem_map_of_mem QueueItem.id (List.mem_of_find?_eq_some hfind)
    rw [processingCount_setStatus_dispatch _ it.id hnone' hinv.1 hmem]
  | complete it hmem hproc =>
    exact ⟨by rw [ids_setStatus]; exact hinv.1,
      le_trans (processingCount_setStatus_le _ it.id .done (by simp)) hinv.2⟩
  | fail it hmem hproc =>
    exact ⟨by rw [ids_setStatus]; exact hinv.1,
      le_trans (processingCount_setStatus_le _ it.id .error (by simp)) hinv.2⟩
  | sweep hidle hnone =>
    exact ⟨by simp, by simp [processingCount]⟩

/-- Claim C1: in every reachable queue state at most one item is in the
processing state; the scheduler only dispatches when no item is
processing. -/
theorem queue_at_most_one_processing (q : List QueueItem)
    (h : Reachable q) : processingCount q ≤ 1 := by
  suffices hinv : QueueInv q from hinv.2
  induction h with
  | init => exact ⟨by simp, by simp [processingCount]⟩
  | step hr hs ih => exact QueueInv_step ih hs

/-- Concrete instance: after enqueuing one file on the empty queue and
dispatching it, the reached state has at most one processing item. -/
theorem queue_at_most_one_processing_witness :
    processingCount
      (setStatus
        (handleStartUpload [] [⟨"a.mp4", "video/mp4"⟩] "P" (fun _ => "u0"))
        "u0" QStatus.processing) ≤ 1 :=
  queue_at_most_one_processing _
    (Reachable.step
      (Reachable.step Reachable.init
        (QStep.enqueue [] [⟨"a.mp4", "video/mp4"⟩] "P" (fun _ => "u0")
          (by decide)))
      (QStep.dispatch _
        { id := "u0", name := "a.mp4", status := .pending, progress := none,
          projectName := "P", file := ⟨"a.mp4", "video/mp4"⟩ }
        (by rfl) (by rfl)))

/-- Claim C5: when no item is processing and the scheduler finds a
pending item, that item is the first pending one in insertion order,
and the dispatch update marks exactly that position processing,
leaving every other item untouched. -/
theorem dispatch_first_pending :
    ∀ (q : List QueueItem) (it : QueueItem),
      q.find? isPending = some it →
      processingCount q = 0 →
      (q.map QueueItem.id).Nodup →
      ∃ i, ∃ hi : i < q.length,
        q.get ⟨i, hi⟩ = it ∧ it.status = QStatus.pending ∧
        (∀ j, ∀ hj : j < q.length, j < i →
          (q.get ⟨j, hj⟩).status ≠ QStatus.pending) ∧
        setStatus q it.id QStatus.processing
          = q.set i { it with status := QStatus.processing } := by
  intro q
  induction q with
  | nil => intro it hfind _ _; simp at hfind
  | cons a q ih =>
    intro it hfind hnone hnodup
    simp only [List.map_cons, List.nodup_cons] at hnodup
    obtain ⟨hnotin, hnodup'⟩ := hnodup
    by_cases hp : isPending a = true
    · rw [List.find?_cons_of_pos _ hp] at hfind
      obtain rfl : a = it := Option.some.inj hfind
      have htail : ∀ x ∈ q, ¬ x.id = a.id := by
        intro x hx hxid
        exact hnotin (hxid ▸ List.mem_map_of_mem QueueItem.id hx)
      refine ⟨0, by simp, rfl, of_decide_eq_true hp, ?_, ?_⟩
      · intro j hj hj0
        omega
      · have hset : setStatus (a :: q) a.id QStatus.processing
            = { a with status := QStatus.processing }
              :: setStatus q a.id QStatus.processing := by
          simp [setStatus]
        rw [hset, setStatus_eq_of_not_mem a.id QStatus.processing q htail]
        rfl
    · rw [List.find?_cons_of_neg _ hp] at hfind
      have hnone' : processingCount q = 0 := by
        rw [processingCount_eq_zero_iff]
        intro x hx
        exact (processingCount_eq_zero_iff _).mp hnone x (List.mem_cons_of_mem a hx)
      obtain ⟨i, hi, hget, hstat, hbefore, hset⟩ := ih it hfind hnone' hnodup'
      have haid : ¬ a.id = it.id := by
        intro hxid
        exact hnotin (hxid ▸ List.mem_map_of_mem QueueItem.id
          (List.mem_of_find?_eq_some hfind))
      refine ⟨i + 1, by simpa using Nat.succ_lt_succ hi, ?_, hstat, ?_, ?_⟩
      · simpa using hget
      · intro j hj hji
        cases j with
        | zero =>
          intro hps
          have hps' : a.status = QStatus.pending := by simpa using hps
          exact hp (by simp [isPending, hps'])
        | succ j' =>
          have hj' : j' < q.length := by simpa using Nat.lt_of_succ_lt_succ hj
          have := hbefore j' hj' (Nat.lt_of_succ_lt_succ hji)
          simpa using this
      · have hcons : setStatus (a :: q) it.id QStatus.processing
            = a :: setStatus q it.id QStatus.processing := by
          simp only [setStatus, List.map_cons, if_neg haid]
        rw [hcons, hset]
        rfl

/-- Concrete instance: in a queue holding a done item followed by two
pending items with distinct ids, the scheduler picks the earlier
pending item (position 1) and only that item becomes processing. -/
theorem dispatch_first_pending_witness :
    ∃ i, ∃ hi : i <
        ([{ id := "d", name := "a.mp4", status := .done, progress := none,
            projectName := "P", file := ⟨"a.mp4", "video/mp4"⟩ },
          { id := "p1", name := "b.mp4", status := .pending, progress := none,
            projectName := "P", file := ⟨"b.mp4", "video/mp4"⟩ },
          { id := "p2", name := "c.mp4", status := .pending, progress := none,
            projectName := "P", file := ⟨"c.mp4", "video/mp4"⟩ }] :
            List QueueItem).length,
      ([{ id := "d", name := "a.mp4", status := .done, progress := none,
          projectName := "P", file := ⟨"a.mp4", "video/mp4"⟩ },
        { id := "p1", name := "b.mp4", status := .pending, progress := none,
          projectName := "P", file := ⟨"b.mp4", "video/mp4"⟩ },
        { id := "p2", name := "c.mp4", status := .pending, progress := none,
          projectName := "P", file := ⟨"c.mp4", "video/mp4"⟩ }] :
          List QueueItem).get ⟨i, hi⟩
        = { id := "p1", name := "b.mp4", status := .pending, progress := none,
            projectName := "P", file := ⟨"b.mp4", "video/mp4"⟩ } ∧
      ({ id := "p1", name := "b.mp4", status := .pending, progress := none,
         projectName := "P", file := ⟨"b.mp4", "video/mp4"⟩ } :
         QueueItem).status = QStatus.pending ∧
      (∀ j, ∀ hj : j <
          ([{ id := "d", name := "a.mp4", status := .done, progress := none,
              projectName := "P", file := ⟨"a.mp4", "video/mp4"⟩ },
            { id := "p1", name := "b.mp4", status := .pending, progress := none,
              projectName := "P", file := ⟨"b.mp4", "video/mp4"⟩ },
            { id := "p2", name := "c.mp4", status := .pending, progress := none,
              projectName := "P", file := ⟨"c.mp4", "video/mp4"⟩ }] :
              List QueueItem).length, j < i →
        (([{ id := "d", name := "a.mp4", status := .done, progress := none,
             projectName := "P", file := ⟨"a.mp4", "video/mp4"⟩ },
           { id := "p1", name := "b.mp4", status := .pending, progress := none,
             projectName := "P", file := ⟨"b.mp4", "video/mp4"⟩ },
           { id := "p2", name := "c.mp4", status := .pending, progress := none,
             projectName := "P", file := ⟨"c.mp4", "video/mp4"⟩ }] :
             List QueueItem).get ⟨j, hj⟩).status ≠ QStatus.pending) ∧
      setStatus
          [{ id := "d", name := "a.mp4", status := .done, progress := none,
             projectName := "P", file := ⟨"a.mp4", "video/mp4"⟩ },
           { id := "p1", name := "b.mp4", status := .pending, progress := none,
             projectName := "P", file := ⟨"b.mp4", "video/mp4"⟩ },
           { id := "p2", name := "c.mp4", status := .pending, progress := none,
             projectName := "P", file := ⟨"c.mp4", "video/mp4"⟩ }]
          "p1" QStatus.processing
        = List.set
            [{ id := "d", name := "a.mp4", status := .done, progress := none,
               projectName := "P", file := ⟨"a.mp4", "video/mp4"⟩ },
             { id := "p1", name := "b.mp4", status := .pending, progress := none,
               projectName := "P", file := ⟨"b.mp4", "video/mp4"⟩ },
             { id := "p2", name := "c.mp4", status := .pending, progress := none,
               projectName := "P", file := ⟨"c.mp4", "video/mp4"⟩ }] i
            { id := "p1", name := "b.mp4", status := QStatus.processing,
              progress := none, projectName := "P",
              file := ⟨"b.mp4", "video/mp4"⟩ } :=
  dispatch_first_pending
    [{ id := "d", name := "a.mp4", status := .done, progress := none,
       projectName := "P", file := ⟨"a.mp4", "video/mp4"⟩ },
     { id := "p1", name := "b.mp4", status := .pending, progress := none,
       projectName := "P", file := ⟨"b.mp4", "video/mp4"⟩ },
     { id := "p2", name := "c.mp4", status := .pending, progress := none,
       projectName := "P", file := ⟨"c.mp4", "video/mp4"⟩ }]
    { id := "p1", name := "b.mp4", status := .pending, progress := none,
      projectName := "P", file := ⟨"b.mp4", "video/mp4"⟩ }
    (by rfl) (by rfl) (by decide)

/-- Positional characterization of `updateRecording`: the item at each
position is replaced exactly when its id matches the update's id. -/
theorem updateRecording_getElem (recs : List Recording) (u : Recording)
    (j : Nat) (hj : j < recs.length) :
    (updateRecording recs u)[j]? =
      some (if (recs.get ⟨j, hj⟩).id = u.id then u else recs.get ⟨j, hj⟩) := by
  unfold updateRecording
  rw [List.getElem?_map, List.getElem?_eq_getElem hj]
  rfl

/-- Claim C9: toggling the bookmark yields a recording whose flag is
the negation of the old (falsy-defaulted) flag while every other field
is unchanged, and storing it through updateRecording changes only the
entries carrying that recording's id. -/
theorem toggleBookmark_frame
    (recs : List Recording) (rec : Recording) (i : Nat)
    (h : i < recs.length) :
    jsBool (toggleBookmark rec).isBookmarked = !jsBool rec.isBookmarked ∧
    (toggleBookmark rec).id = rec.id ∧
    (toggleBookmark rec).name = rec.name ∧
    (toggleBookmark rec).projectName = rec.projectName ∧
    (toggleBookmark rec).subject = rec.subject ∧
    (toggleBookmark rec).transcript = rec.transcript ∧
    (toggleBookmark rec).fullText = rec.fullText ∧
    (toggleBookmark rec).dateCreated = rec.dateCreated ∧
    (toggleBookmark rec).meetingDate = rec.meetingDate ∧
    (toggleBookmark rec).remarks = rec.remarks ∧
    (toggleBookmark rec).mediaUrl = rec.mediaUrl ∧
    (toggleBookmark rec).attendees = rec.attendees ∧
    (updateRecording recs (toggleBookmark rec)).length = recs.length ∧
    (¬ (recs.get ⟨i, h⟩).id = rec.id →
      (updateRecording recs (toggleBookmark rec))[i]? =
        some (recs.get ⟨i, h⟩)) ∧
    ((recs.get ⟨i, h⟩).id = rec.id →
      (updateRecording recs (toggleBookmark rec))[i]? =
        some (toggleBookmark rec)) := by
  refine ⟨rfl, rfl, rfl, rfl, rfl, rfl, rfl, rfl, rfl, rfl, rfl, rfl,
    by simp [updateRecording], ?_, ?_⟩
  · intro hne
    rw [updateRecording_getElem recs (toggleBookmark rec) i h,
      show (toggleBookmark rec).id = rec.id from rfl, if_neg hne]
  · intro heq
    rw [updateRecording_getElem recs (toggleBookmark rec) i h,
      show (toggleBookmark rec).id = rec.id from rfl, if_pos heq]

/-- A sample recording without a bookmark flag. -/
def sampleRec1 : Recording :=
  { id := "r1", name := "a.mp4", projectName := "P", subject := "Subj",
    transcript := [], fullText := "", dateCreated := "d1",
    meetingDate := "m1", remarks := none, isBookmarked := none,
    mediaUrl := none, attendees := none }

/-- A sample recording with its bookmark flag set. -/
def sampleRec2 : Recording :=
  { id := "r2", name := "b.mp4", projectName := "P", subject := "Subj2",
    transcript := [], fullText := "", dateCreated := "d2",
    meetingDate := "m2", remarks := some "note", isBookmarked := some true,
    mediaUrl := none, attendees := none }

/-- Concrete instance: toggling the bookmark of the second sample in a
two-recording store flips only its flag and leaves position 0 (a
different id) unchanged. -/
theorem toggleBookmark_frame_witness :
    jsBool (toggleBookmark sampleRec2).isBookmarked
      = !jsBool sampleRec2.isBookmarked ∧
    (toggleBookmark sampleRec2).id = sampleRec2.id ∧
    (toggleBookmark sampleRec2).name = sampleRec2.name ∧
    (toggleBookmark sampleRec2).projectName = sampleRec2.projectName ∧
    (toggleBookmark sampleRec2).subject = sampleRec2.subject ∧
    (toggleBookmark sampleRec2).transcript = sampleRec2.transcript ∧
    (toggleBookmark sampleRec2).fullText = sampleRec2.fullText ∧
    (toggleBookmark sampleRec2).dateCreated = sampleRec2.dateCreated ∧
    (toggleBookmark sampleRec2).meetingDate = sampleRec2.meetingDate ∧
    (toggleBookmark sampleRec2).remarks = sampleRec2.remarks ∧
    (toggleBookmark sampleRec2).mediaUrl = sampleRec2.mediaUrl ∧
    (toggleBookmark sampleRec2).attendees = sampleRec2.attendees ∧
    (updateRecording [sampleRec1, sampleRec2]
      (toggleBookmark sampleRec2)).length = 2 ∧
    (¬ (([sampleRec1, sampleRec2] : List Recording).get
        ⟨0, by decide⟩).id = sampleRec2.id →
      (updateRecording [sampleRec1, sampleRec2] (toggleBookmark sampleRec2))[0]? =
        some (([sampleRec1, sampleRec2] : List Recording).get ⟨0, by decide⟩)) ∧
    ((([sampleRec1, sampleRec2] : List Recording).get
        ⟨0, by decide⟩).id = sampleRec2.id →
      (updateRecording [sampleRec1, sampleRec2] (toggleBookmark sampleRec2))[0]? =
        some (toggleBookmark sampleRec2)) :=
  toggleBookmark_frame [sampleRec1, sampleRec2] sampleRec2 0 (by decide)

/-- Claim C10: deleting a stored recording id keeps exactly the
recordings with other ids (in order), shrinks the list, clears the
selection when it pointed at the deleted id, and leaves the selection
alone otherwise. -/
theorem deleteRecording_spec
    (recs : List Recording) (sel : Option Recording) (id : String)
    (r : Recording) (hmem : ∃ x ∈ recs, x.id = id) :
    (r ∈ (deleteRecording recs sel id).1 ↔ r ∈ recs ∧ ¬ r.id = id) ∧
    (deleteRecording recs sel id).1.Sublist recs ∧
    (deleteRecording recs sel id).1.length < recs.length ∧
    (sel.map Recording.id = some id → (deleteRecording recs sel id).2 = none) ∧
    (¬ sel.map Recording.id = some id →
      (deleteRecording recs sel id).2 = sel) := by
  refine ⟨?_, ?_, ?_, ?_, ?_⟩
  · simp [deleteRecording, List.mem_filter]
  · exact List.filter_sublist recs
  · obtain ⟨x, hx, hxid⟩ := hmem
    show (recs.filter _).length < recs.length
    rw [List.length_filter_lt_length_iff_exists]
    exact ⟨x, hx, by simp [hxid]⟩
  · intro hsel
    simp [deleteRecording, hsel]
  · intro hsel
    simp [deleteRecording, hsel]

/-- Concrete instance: deleting id r1 while r2 is selected keeps r2,
drops r1, shrinks the store and leaves the selection untouched. -/
theorem deleteRecording_spec_witness :
    (sampleRec2 ∈ (deleteRecording [sampleRec1, sampleRec2]
        (some sampleRec2) "r1").1 ↔
      sampleRec2 ∈ [sampleRec1, sampleRec2] ∧ ¬ sampleRec2.id = "r1") ∧
    (deleteRecording [sampleRec1, sampleRec2] (some sampleRec2)
      "r1").1.Sublist [sampleRec1, sampleRec2] ∧
    (deleteRecording [sampleRec1, sampleRec2] (some sampleRec2)
      "r1").1.length < 2 ∧
    ((some sampleRec2).map Recording.id = some "r1" →
      (deleteRecording [sampleRec1, sampleRec2] (some sampleRec2) "r1").2
        = none) ∧
    (¬ (some sampleRec2).map Recording.id = some "r1" →
      (deleteRecording [sampleRec1, sampleRec2] (some sampleRec2) "r1").2
        = some sampleRec2) :=
  deleteRecording_spec [sampleRec1, sampleRec2] (some sampleRec2) "r1"
    sampleRec2 ⟨sampleRec1, by simp [sampleRec1]⟩

/-- Claim C8: with an existing anchor segment and a non-blank new name,
handleRenameSpeaker renames exactly the segments whose speaker equals
the anchor's old speaker (position by position), keeps the rest
unchanged, and the full text is recomputed from the updated segments. -/
theorem handleRenameSpeaker_spec
    (transcript : List TranscriptSegment) (segmentId newName : String)
    (anchor : TranscriptSegment) (i : Nat)
    (hfind : (transcript.find? fun s => decide (s.id = segmentId))
      = some anchor)
    (hname : ¬ jsTrim newName = "")
    (h : i < transcript.length) :
    (renameSpeaker transcript segmentId newName).length
      = transcript.length ∧
    ((transcript.get ⟨i, h⟩).speaker = anchor.speaker →
      (renameSpeaker transcript segmentId newName)[i]? =
        some { transcript.get ⟨i, h⟩ with speaker := some newName }) ∧
    (¬ (transcript.get ⟨i, h⟩).speaker = anchor.speaker →
      (renameSpeaker transcript segmentId newName)[i]? =
        some (transcript.get ⟨i, h⟩)) ∧
    renameFullText transcript segmentId newName =
      String.intercalate "\n"
        ((renameSpeaker transcript segmentId newName).map
          renderSegmentRename) := by
  have hrs : renameSpeaker transcript segmentId newName
      = transcript.map fun seg =>
          if seg.speaker = anchor.speaker
          then { seg with speaker := some newName } else seg := by
    unfold renameSpeaker
    rw [if_neg hname, hfind]
    rfl
  refine ⟨by rw [hrs]; simp, ?_, ?_, rfl⟩
  · intro hsp
    rw [hrs, List.getElem?_map, List.getElem?_eq_getElem h]
    show some (if (transcript.get ⟨i, h⟩).speaker = anchor.speaker
        then { transcript.get ⟨i, h⟩ with speaker := some newName }
        else transcript.get ⟨i, h⟩) = _
    rw [if_pos hsp]
  · intro hsp
    rw [hrs, List.getElem?_map, List.getElem?_eq_getElem h]
    show some (if (transcript.get ⟨i, h⟩).speaker = anchor.speaker
        then { transcript.get ⟨i, h⟩ with speaker := some newName }
        else transcript.get ⟨i, h⟩) = _
    rw [if_neg hsp]

/-- Sample transcript for the rename instance: two segments by speaker
A around one by speaker B. -/
def sampleTranscript : List TranscriptSegment :=
  [{ id := "s1", timestamp := "00:01", speaker := some "A", text := "hi",
     translatedText := none, language := none },
   { id := "s2", timestamp := "00:05", speaker := some "B", text := "yo",
     translatedText := none, language := none },
   { id := "s3", timestamp := "00:09", speaker := some "A", text := "bye",
     translatedText := none, language := none }]

/-- Concrete instance: renaming via anchor s1 (speaker A) renames the
segment at position 2 (also speaker A) and the full text is the
rendering of the updated transcript. -/
theorem handleRenameSpeaker_spec_witness :
    (renameSpeaker sampleTranscript "s1" "Alice").length
      = sampleTranscript.length ∧
    ((sampleTranscript.get ⟨2, by decide⟩).speaker =
        ({ id := "s1", timestamp := "00:01", speaker := some "A",
           text := "hi", translatedText := none, language := none } :
           TranscriptSegment).speaker →
      (renameSpeaker sampleTranscript "s1" "Alice")[2]? =
        some { sampleTranscript.get ⟨2, by decide⟩ with
          speaker := some "Alice" }) ∧
    (¬ (sampleTranscript.get ⟨2, by decide⟩).speaker =
        ({ id := "s1", timestamp := "00:01", speaker := some "A",
           text := "hi", translatedText := none, language := none } :
           TranscriptSegment).speaker →
      (renameSpeaker sampleTranscript "s1" "Alice")[2]? =
        some (sampleTranscript.get ⟨2, by decide⟩)) ∧
    renameFullText sampleTranscript "s1" "Alice" =
      String.intercalate "\n"
        ((renameSpeaker sampleTranscript "s1" "Alice").map
          renderSegmentRename) :=
  handleRenameSpeaker_spec sampleTranscript "s1" "Alice"
    { id := "s1", timestamp := "00:01", speaker := some "A", text := "hi",
      translatedText := none, language := none }
    2 (by rfl) (by decide) (by decide)

end SmartTranscriber
